import Mathlib

/-!
Shallow embedding of `src/advanced-vector/vector.h` (class `Vector<T>` built on
`RawMemory<T>`).

A `Vec T` models the pair of private members `RawMemory<T> data_` and
`size_t size_`: `cap` is `data_.Capacity()` and `elems` is the list of the live,
constructed values occupying exactly the slots `[0, size_)` of the buffer
(`size_` itself is `elems.length`).  Raw, uninitialized slots carry no value, so
they do not appear in the model; pointer shuffles (`std::uninitialized_move_n`,
`std::move_backward`, placement `new`, `std::destroy_n`) are translated to the
list of live values they leave behind.  `size_t` is modelled by `Nat`: the code
never relies on wrap-around of `size_` or capacities.

Aliasing checks of the form `this != &rhs` in the assignment operators are
modelled by an explicit `isSelf : Bool` argument (`true` means `this == &rhs`,
in which case the two value arguments coincide).

Element construction that may throw (for the strong-safety claim about
`PushBack`/`EmplaceBack`) is modelled by an `Option T` argument: `none` means
the placement-new of the new element throws.  Following the source order, the
throw happens before the old buffer is touched, so the operation returns
`Except.error` carrying the unchanged vector.
-/

namespace AdvancedVector

structure Vec (T : Type) where
  cap : Nat
  elems : List T
deriving DecidableEq

namespace Vec

variable {T : Type}

/-- Live-element count: the member `size_`, maintained equal to the number of
constructed slots. -/
def size (v : Vec T) : Nat := v.elems.length

/-- Default constructor `Vector()`: null buffer, capacity 0, size 0. -/
def empty : Vec T := ⟨0, []⟩

/-- Constructor `Vector(size_t size)`: allocates exactly `size` slots and
value-constructs `size` elements (`std::uninitialized_value_construct_n`);
`d` is the value-initialized element of type `T`. -/
def ofSize (n : Nat) (d : T) : Vec T := ⟨n, List.replicate n d⟩

/-- Copy constructor `Vector(const Vector&)`: allocates exactly `other.size_`
slots and copies the `other.size_` live elements. -/
def copyCtor (other : Vec T) : Vec T := ⟨other.size, other.elems⟩

/-- Move constructor `Vector(Vector&&)`: default-initializes the members and
`Swap`s with `other`.  Returns (the new vector, the source after the move). -/
def moveCtor (other : Vec T) : Vec T × Vec T :=
  (⟨other.cap, other.elems⟩, ⟨0, []⟩)

/-- Member `Swap`: exchanges `data_` (buffer and capacity) and `size_`.
Returns the pair of post-states. -/
def Swap (a b : Vec T) : Vec T × Vec T :=
  (⟨b.cap, b.elems⟩, ⟨a.cap, a.elems⟩)

/-- Copy assignment `operator=(const Vector& rhs)`.  `isSelf` models
`this == &rhs`.  When `rhs.size_ > data_.Capacity()` it copy-constructs a
temporary and swaps, so the capacity becomes exactly `rhs.size_`; otherwise
both sub-branches overwrite the common prefix element-wise and then either
destroy the surplus tail or copy-construct the missing suffix, which leaves
exactly the elements of `rhs` in the old buffer with the capacity unchanged. -/
def copyAssign (dst rhs : Vec T) (isSelf : Bool) : Vec T :=
  if isSelf then dst
  else if rhs.size > dst.cap then ⟨rhs.size, rhs.elems⟩
  else ⟨dst.cap, rhs.elems⟩

/-- Move assignment `operator=(Vector&& rhs)`: when `this != &rhs` it `Swap`s
the two vectors.  Returns (the destination, the source after the move). -/
def moveAssign (dst rhs : Vec T) (isSelf : Bool) : Vec T × Vec T :=
  if isSelf then (dst, rhs)
  else (⟨rhs.cap, rhs.elems⟩, ⟨dst.cap, dst.elems⟩)

/-- The growth rule `size_ == 0 ? 1 : size_ * 2` shared by `PushBack`,
`EmplaceBack` and `Emplace`. -/
def growCap (n : Nat) : Nat := if n = 0 then 1 else 2 * n

/-- `PushBack`: on `size_ == Capacity()` allocates `growCap size_` slots,
constructs the new element there, transfers the old elements, destroys the old
buffer and swaps; otherwise constructs in place.  Either way `size_`
increments. -/
def PushBack (v : Vec T) (x : T) : Vec T :=
  if v.size = v.cap then ⟨growCap v.size, v.elems ++ [x]⟩
  else ⟨v.cap, v.elems ++ [x]⟩

/-- `EmplaceBack`: identical buffer discipline to `PushBack`, the element being
constructed from the forwarded arguments (here: the already-constructed value
`x`). -/
def EmplaceBack (v : Vec T) (x : T) : Vec T :=
  if v.size = v.cap then ⟨growCap v.size, v.elems ++ [x]⟩
  else ⟨v.cap, v.elems ++ [x]⟩

/-- `PushBack`/`EmplaceBack` with a fallible element constructor: `none` means
the placement-new of the new element throws.  In the source, on the growth path
the new element is constructed into the fresh buffer before any old element is
moved or destroyed, and on the in-place path before `size_` is incremented; in
both cases the exception propagates with `*this` untouched (the fresh
`RawMemory` is released by its destructor). -/
def PushBackTry (v : Vec T) (mk : Option T) : Except (Vec T) (Vec T) :=
  if v.size = v.cap then
    match mk with
    | none => Except.error v
    | some x => Except.ok ⟨growCap v.size, v.elems ++ [x]⟩
  else
    match mk with
    | none => Except.error v
    | some x => Except.ok ⟨v.cap, v.elems ++ [x]⟩

/-- `Emplace(pos, args...)` with `pos = begin() + i`, `i ≤ size_`.  `pos = end()`
delegates to `EmplaceBack`.  On growth the new element is constructed at index
`i` of the fresh buffer and the old elements are transferred around it; without
growth a temporary is built, the last element is move-constructed into the slot
`end()`, `[i, size_-1)` is shifted back one slot and the temporary assigned at
`i`.  All paths leave the element sequence `take i ++ x :: drop i`. -/
def Emplace (v : Vec T) (i : Nat) (x : T) : Vec T :=
  if i = v.size then v.EmplaceBack x
  else if v.size = v.cap then
    ⟨growCap v.size, v.elems.take i ++ x :: v.elems.drop i⟩
  else ⟨v.cap, v.elems.take i ++ x :: v.elems.drop i⟩

/-- `Insert(pos, value)`: forwards to `Emplace`. -/
def Insert (v : Vec T) (i : Nat) (x : T) : Vec T := v.Emplace i x

/-- `PopBack`: when `size_ != 0` destroys the element at `size_ - 1` and
decrements `size_`; otherwise does nothing. -/
def PopBack (v : Vec T) : Vec T :=
  if v.size ≠ 0 then ⟨v.cap, v.elems.dropLast⟩ else v

/-- `Erase(pos)` with `pos = begin() + i`, `i < size_`: moves `[i+1, size_)`
one slot down, destroys the vacated last slot and decrements `size_`. -/
def Erase (v : Vec T) (i : Nat) : Vec T := ⟨v.cap, v.elems.eraseIdx i⟩

/-- `Clear`: destroys all live elements; capacity untouched. -/
def Clear (v : Vec T) : Vec T := ⟨v.cap, []⟩

/-- `At(index)`: returns the element when `index < size_` and signals
`std::out_of_range` (modelled by `none`) otherwise; it reads only and never
mutates the vector. -/
def At (v : Vec T) (i : Nat) : Option T :=
  if h : i < v.elems.length then some (v.elems.get ⟨i, h⟩) else none

/-- `Reserve(new_capacity)`: returns unchanged when `new_capacity <= size_`
(note: the source compares against `size_`, not against `Capacity()`);
otherwise allocates exactly `new_capacity` slots, transfers the live elements,
destroys the old ones and swaps buffers. -/
def Reserve (v : Vec T) (new_capacity : Nat) : Vec T :=
  if new_capacity ≤ v.size then v
  else ⟨new_capacity, v.elems⟩

/-- `Resize(new_size)`: growing calls `Reserve(new_size)` and value-constructs
the new tail (`d` is the value-initialized element); shrinking destroys the
surplus tail. -/
def Resize (v : Vec T) (new_size : Nat) (d : T) : Vec T :=
  if new_size > v.size then
    let r := v.Reserve new_size
    ⟨r.cap, r.elems ++ List.replicate (new_size - v.size) d⟩
  else ⟨v.cap, v.elems.take new_size⟩

/-- `IsEmpty`. -/
def IsEmpty (v : Vec T) : Bool := v.size = 0

end Vec

/-- The vectors producible through the public interface: constructors,
assignment (with an arbitrary aliasing flag), `PushBack`, `EmplaceBack`,
`Insert`, `Emplace`, `PopBack`, `Erase`, `Clear`, `Resize`, `Reserve` and
`Swap`.  The positional operations carry the preconditions the source asserts
(`pos` within `[begin, end]` for `Emplace`/`Insert`, within `[begin, end)` with
a non-empty vector for `Erase`). -/
inductive Reachable {T : Type} : Vec T → Prop where
  | init : Reachable (Vec.empty : Vec T)
  | ofSize (n : Nat) (d : T) : Reachable (Vec.ofSize n d)
  | copyCtor {v : Vec T} : Reachable v → Reachable (Vec.copyCtor v)
  | moveCtorNew {v : Vec T} : Reachable v → Reachable (Vec.moveCtor v).1
  | moveCtorSrc {v : Vec T} : Reachable v → Reachable (Vec.moveCtor v).2
  | copyAssign {dst rhs : Vec T} (b : Bool) :
      Reachable dst → Reachable rhs → Reachable (Vec.copyAssign dst rhs b)
  | moveAssignDst {dst rhs : Vec T} (b : Bool) :
      Reachable dst → Reachable rhs → Reachable (Vec.moveAssign dst rhs b).1
  | moveAssignSrc {dst rhs : Vec T} (b : Bool) :
      Reachable dst → Reachable rhs → Reachable (Vec.moveAssign dst rhs b).2
  | pushBack {v : Vec T} (x : T) : Reachable v → Reachable (v.PushBack x)
  | emplaceBack {v : Vec T} (x : T) : Reachable v → Reachable (v.EmplaceBack x)
  | emplace {v : Vec T} (i : Nat) (x : T) :
      i ≤ v.size → Reachable v → Reachable (v.Emplace i x)
  | insert {v : Vec T} (i : Nat) (x : T) :
      i ≤ v.size → Reachable v → Reachable (v.Insert i x)
  | popBack {v : Vec T} : Reachable v → Reachable v.PopBack
  | erase {v : Vec T} (i : Nat) : i < v.size → Reachable v → Reachable (v.Erase i)
  | clear {v : Vec T} : Reachable v → Reachable v.Clear
  | resize {v : Vec T} (n : Nat) (d : T) : Reachable v → Reachable (v.Resize n d)
  | reserve {v : Vec T} (n : Nat) : Reachable v → Reachable (v.Reserve n)
  | swapFst {a b : Vec T} : Reachable a → Reachable b → Reachable (Vec.Swap a b).1
  | swapSnd {a b : Vec T} : Reachable a → Reachable b → Reachable (Vec.Swap a b).2

/-- Repeated single-element appends, starting from the default-constructed
vector (the appended value is irrelevant to size and capacity). -/
def pushN : Nat → Vec Nat
  | 0 => Vec.empty
  | n + 1 => (pushN n).PushBack 0

section Lemmas

variable {T : Type}

lemma pushBack_size (v : Vec T) (x : T) : (v.PushBack x).size = v.size + 1 := by
  unfold Vec.PushBack
  split <;> simp [Vec.size]

lemma pushBack_inv {v : Vec T} (x : T) (h : v.size ≤ v.cap) :
    (v.PushBack x).size ≤ (v.PushBack x).cap := by
  unfold Vec.PushBack Vec.growCap
  split
  · simp only [Vec.size, List.length_append, List.length_cons, List.length_nil] at *
    split <;> omega
  · simp only [Vec.size, List.length_append, List.length_cons, List.length_nil] at *
    omega

lemma emplaceBack_eq_pushBack (v : Vec T) (x : T) : v.EmplaceBack x = v.PushBack x := rfl

lemma emplace_elems {v : Vec T} {i : Nat} (x : T) (h : i ≤ v.size) :
    (v.Emplace i x).elems = v.elems.take i ++ x :: v.elems.drop i := by
  unfold Vec.Emplace Vec.EmplaceBack
  split
  · next he =>
    simp only [Vec.size] at he
    subst he
    split <;> simp [List.take_length, List.drop_length]
  · split <;> rfl

lemma emplace_size {v : Vec T} {i : Nat} (x : T) (h : i ≤ v.size) :
    (v.Emplace i x).size = v.size + 1 := by
  have he := emplace_elems (v := v) x h
  simp only [Vec.size] at h ⊢
  rw [he]
  simp only [List.length_append, List.length_take, List.length_cons, List.length_drop]
  omega

lemma emplace_cap (v : Vec T) (i : Nat) (x : T) :
    (v.Emplace i x).cap = if v.size = v.cap then Vec.growCap v.size else v.cap := by
  unfold Vec.Emplace Vec.EmplaceBack
  split
  · split <;> rfl
  · split <;> rfl

lemma emplace_inv {v : Vec T} {i : Nat} (x : T) (hi : i ≤ v.size) (h : v.size ≤ v.cap) :
    (v.Emplace i x).size ≤ (v.Emplace i x).cap := by
  rw [emplace_size x hi, emplace_cap]
  unfold Vec.growCap
  split
  · split <;> omega
  · omega

end Lemmas

/-- C5: in every state reachable from a constructed vector through any sequence
of the public operations (construction, assignment, `PushBack`, `EmplaceBack`,
`Insert`, `Emplace`, `PopBack`, `Erase`, `Clear`, `Resize`, `Reserve`, `Swap`),
the invariant `0 ≤ size ≤ capacity` holds.  In the model, `size` is by
definition the length of the list of live elements, so being a `Nat` it is
non-negative and the slots `[0, size)` are exactly the live ones. -/
theorem C5_reachable_size_le_capacity {T : Type} {v : Vec T} (h : Reachable v) :
    v.size ≤ v.cap := by
  induction h with
  | init => simp [Vec.empty, Vec.size]
  | ofSize n d => simp [Vec.ofSize, Vec.size]
  | copyCtor _ _ => simp [Vec.copyCtor, Vec.size]
  | moveCtorNew _ ih => simpa [Vec.moveCtor, Vec.size] using ih
  | moveCtorSrc _ _ => simp [Vec.moveCtor, Vec.size]
  | copyAssign b _ _ ih1 ih2 =>
    unfold Vec.copyAssign
    split
    · exact ih1
    · split
      · simp [Vec.size]
      · next hgt => simp only [Vec.size, gt_iff_lt, not_lt] at hgt ⊢; omega
  | moveAssignDst b _ _ ih1 ih2 =>
    unfold Vec.moveAssign
    split
    · exact ih1
    · simpa [Vec.size] using ih2
  | moveAssignSrc b _ _ ih1 ih2 =>
    unfold Vec.moveAssign
    split
    · exact ih2
    · simpa [Vec.size] using ih1
  | pushBack x _ ih => exact pushBack_inv x ih
  | emplaceBack x _ ih => rw [emplaceBack_eq_pushBack]; exact pushBack_inv x ih
  | emplace i x hi _ ih => exact emplace_inv x hi ih
  | insert i x hi _ ih => rw [Vec.Insert]; exact emplace_inv x hi ih
  | popBack _ ih =>
    unfold Vec.PopBack
    split
    · next hne =>
      simp only [Vec.size, List.length_dropLast] at *
      omega
    · exact ih
  | erase i hi _ ih =>
    simp only [Vec.Erase, Vec.size, List.length_eraseIdx] at *
    split <;> omega
  | clear _ _ => simp [Vec.Clear, Vec.size]
  | resize n d _ ih =>
    unfold Vec.Resize Vec.Reserve
    split
    · next hgt =>
      rw [if_neg (by omega)]
      simp only [Vec.size, List.length_append, List.length_replicate] at *
      omega
    · next hle =>
      simp only [Vec.size, List.length_take] at *
      omega
  | reserve n _ ih =>
    unfold Vec.Reserve
    split
    · exact ih
    · next hgt => simp only [Vec.size] at *; omega
  | swapFst _ _ ih1 ih2 => simpa [Vec.Swap, Vec.size] using ih2
  | swapSnd _ _ ih1 ih2 => simpa [Vec.Swap, Vec.size] using ih1

/-- Witness for C5: the invariant at the concrete reachable state obtained by
one `PushBack` on a default-constructed vector. -/
theorem C5_witness :
    ((Vec.empty : Vec Nat).PushBack 3).size ≤ ((Vec.empty : Vec Nat).PushBack 3).cap :=
  C5_reachable_size_le_capacity (Reachable.pushBack 3 Reachable.init)

/-- C1: the claim says `Reserve(n)` is a no-op when the capacity is already at
least `n` and that `Reserve` never decreases capacity.  The source instead
returns early only when `new_capacity <= size_`, so on a vector of size 2 with
capacity 10 (two appends, then `Reserve(10)`), `Reserve(5)` reallocates and
the capacity drops from 10 to 5. -/
theorem C1_reserve_shrinks_capacity :
    ((((Vec.empty : Vec Nat).PushBack 1).PushBack 2).Reserve 10).cap = 10 ∧
    (((((Vec.empty : Vec Nat).PushBack 1).PushBack 2).Reserve 10).Reserve 5).cap = 5 := by
  decide

/-- C2 counterexample: the claim says that after `b = move(a)` the source `a`
has size 0.  Move assignment swaps, so with `b = [7, 8]` (size 2) and
`a = [1]`, the source ends with size 2, not 0.  The aliasing flag is `false`
because the two vectors are distinct objects. -/
theorem C2_counterexample :
    ¬ ((Vec.moveAssign (((Vec.empty : Vec Nat).PushBack 7).PushBack 8)
        ((Vec.empty : Vec Nat).PushBack 1) false).2.size = 0) := by
  decide

/-- C2 (amended): after move construction the source has size 0 and capacity 0
and is reusable (a subsequent append behaves normally, leaving exactly the new
element), and the new vector holds exactly the moved-from buffer and size.
Move assignment `b = move(a)` swaps the two vectors, so `a` receives the
previous capacity and elements of `b` — a valid, reusable state, but empty only when
`b` was empty.  Both operations are total functions of the two states
(no allocation, never fail). -/
theorem C2_move_semantics {T : Type} (a b : Vec T) (x : T) :
    (Vec.moveCtor a).1 = a ∧
    (Vec.moveCtor a).2.size = 0 ∧ (Vec.moveCtor a).2.cap = 0 ∧
    ((Vec.moveCtor a).2.PushBack x).elems = [x] ∧
    Vec.moveAssign b a false = (⟨a.cap, a.elems⟩, ⟨b.cap, b.elems⟩) := by
  refine ⟨rfl, rfl, rfl, ?_, rfl⟩
  simp [Vec.moveCtor, Vec.PushBack, Vec.size, Vec.growCap]

/-- C3: when `size_ == Capacity()` and appending triggers growth, a failing
construction of the new element (modelled by `none`) leaves the vector exactly
as before the call — same size, same capacity, same elements — because the
source constructs the new element into the fresh buffer before the old buffer
is read, destroyed or swapped.  `PushBackTry` models both `PushBack` and
`EmplaceBack`, whose growth paths are identical. -/
theorem C3_pushBack_strong_safety {T : Type} (v : Vec T) (h : v.size = v.cap) :
    v.PushBackTry none = Except.error v := by
  unfold Vec.PushBackTry
  rw [if_pos h]

/-- Witness for C3 at the concrete full vector `[1, 2]` of capacity 2. -/
theorem C3_witness :
    (((Vec.empty : Vec Nat).PushBack 1).PushBack 2).size
      = (((Vec.empty : Vec Nat).PushBack 1).PushBack 2).cap ∧
    (((Vec.empty : Vec Nat).PushBack 1).PushBack 2).PushBackTry none
      = Except.error (((Vec.empty : Vec Nat).PushBack 1).PushBack 2) :=
  ⟨by decide, C3_pushBack_strong_safety _ (by decide)⟩

/-- C9: `PopBack` removes exactly the last live element — capacity unchanged,
the element list becomes the original without its last entry (so size drops by
one and the first `size - 1` elements are untouched) — and on an empty vector
it is a no-op. -/
theorem C9_popBack {T : Type} (v : Vec T) :
    v.PopBack.cap = v.cap ∧ v.PopBack.elems = v.elems.dropLast ∧
    (v.size = 0 → v.PopBack = v) := by
  unfold Vec.PopBack
  split
  · next hne => exact ⟨rfl, rfl, fun h => absurd h hne⟩
  · next hz =>
    simp only [Decidable.not_not] at hz
    have : v.elems = [] := List.eq_nil_of_length_eq_zero hz
    simp [this]

/-- Witness for C9: `PopBack` on the empty vector is a no-op. -/
theorem C9_witness : (Vec.empty : Vec Nat).PopBack = Vec.empty :=
  (C9_popBack Vec.empty).2.2 rfl

/-- C10: self-assignment, by copy (`a = a`) or by move (`a = move(a)`), leaves
the vector unchanged — the source guards both operators with `this != &rhs`
(the aliasing flag is `true`). -/
theorem C10_self_assignment {T : Type} (v : Vec T) :
    Vec.copyAssign v v true = v ∧ Vec.moveAssign v v true = (v, v) := by
  simp [Vec.copyAssign, Vec.moveAssign]

/-- C6: the checked accessor `At(i)` signals out-of-range (modelled by `none`)
exactly when `i ≥ size`: `At(size)` and `At(size + 1)` both fail, any
`i ≥ size` fails, and any `i < size` succeeds with element `i`.  `At` only
reads, so a failed call leaves the vector unchanged by construction. -/
theorem C6_at_bounds {T : Type} (v : Vec T) (i : Nat) :
    v.At v.size = none ∧ v.At (v.size + 1) = none ∧
    (v.size ≤ i → v.At i = none) ∧
    ∀ h : i < v.size, v.At i = some (v.elems.get ⟨i, h⟩) := by
  unfold Vec.At Vec.size
  refine ⟨?_, ?_, ?_, ?_⟩
  · rw [dif_neg (by omega)]
  · rw [dif_neg (by omega)]
  · intro h
    rw [dif_neg (by omega)]
  · intro h
    rw [dif_pos h]

/-- Witness for C6: on the vector `[5]` (size 1), `At 1` fails and `At 0`
returns element 0. -/
theorem C6_witness :
    ((Vec.empty : Vec Nat).PushBack 5).At 1 = none ∧
    ((Vec.empty : Vec Nat).PushBack 5).At 0 = some 5 := by
  constructor
  · exact (C6_at_bounds ((Vec.empty : Vec Nat).PushBack 5) 1).2.2.1 (by decide)
  · exact ((C6_at_bounds ((Vec.empty : Vec Nat).PushBack 5) 0).2.2.2 (by decide)).trans
      (by decide)

lemma eraseIdx_append_cons (l1 l2 : List T) (x : T) {i : Nat} (h : i = l1.length) :
    (l1 ++ x :: l2).eraseIdx i = l1 ++ l2 := by
  subst h
  induction l1 with
  | nil => rfl
  | cons a l ih => simpa using ih

/-- C7: inserting `v` at any valid position `i ∈ [begin, end]` and erasing at
the same position restores the original element sequence. -/
theorem C7_insert_erase_roundtrip {T : Type} (v : Vec T) (i : Nat) (x : T)
    (h : i ≤ v.size) :
    ((v.Insert i x).Erase i).elems = v.elems := by
  have he : (v.Insert i x).elems = v.elems.take i ++ x :: v.elems.drop i :=
    emplace_elems x h
  have hlen : i = (v.elems.take i).length := by
    simp only [Vec.size] at h
    simp only [List.length_take]
    omega
  simp only [Vec.Erase]
  rw [he, eraseIdx_append_cons _ _ _ hlen, List.take_append_drop]

/-- Witness for C7: insert 2 at position 1 of `[1, 3]`, then erase there. -/
theorem C7_witness :
    1 ≤ (((Vec.empty : Vec Nat).PushBack 1).PushBack 3).size ∧
    (((((Vec.empty : Vec Nat).PushBack 1).PushBack 3).Insert 1 2).Erase 1).elems
      = (((Vec.empty : Vec Nat).PushBack 1).PushBack 3).elems :=
  ⟨by decide, C7_insert_erase_roundtrip _ 1 2 (by decide)⟩

lemma resize_grow {v : Vec T} {n : Nat} (d : T) (h : v.size < n) :
    v.Resize n d = ⟨n, v.elems ++ List.replicate (n - v.size) d⟩ := by
  unfold Vec.Resize Vec.Reserve
  rw [if_pos h, if_neg (by omega)]

lemma resize_shrink {v : Vec T} {n : Nat} (d : T) (h : n ≤ v.size) :
    v.Resize n d = ⟨v.cap, v.elems.take n⟩ := by
  unfold Vec.Resize
  rw [if_neg (by omega)]

/-- C8: `Resize(k)` followed by `Resize(s)` with `s` the original size restores
size `s`; the prefix `[0, min(k, s))` keeps the original elements, and the
positions from `min(k, s)` on hold the value-initialized element `d` created by
the growing resize (no such positions exist when `k ≥ s`). -/
theorem C8_resize_roundtrip {T : Type} (v : Vec T) (k : Nat) (d : T) :
    ((v.Resize k d).Resize v.size d).size = v.size ∧
    ((v.Resize k d).Resize v.size d).elems
      = v.elems.take (min k v.size) ++ List.replicate (v.size - min k v.size) d := by
  rcases Nat.lt_or_ge v.size k with hk | hk
  · rw [resize_grow d hk,
      resize_shrink d
        (by simp only [Vec.size, List.length_append, List.length_replicate]; omega)]
    have hmin : min k v.size = v.size := by omega
    rw [hmin]
    constructor
    · simp only [Vec.size, List.take_left]
    · simp only [Vec.size, List.take_left, Nat.sub_self, List.replicate_zero,
        List.append_nil, List.take_length]
  · rw [resize_shrink d hk]
    rcases Nat.lt_or_ge k v.size with hk2 | hk2
    · rw [resize_grow d
        (by simp only [Vec.size, List.length_take]; simp only [Vec.size] at hk2; omega)]
      have hmin : min k v.size = k := by omega
      rw [hmin]
      simp only [Vec.size] at hk ⊢
      constructor
      · simp only [List.length_append, List.length_take, List.length_replicate]
        omega
      · have hlt : (v.elems.take k).length = k := by
          simp only [List.length_take]
          omega
        rw [hlt]
    · have hkl : k = v.elems.length := by
        simp only [Vec.size] at hk hk2
        omega
      subst hkl
      rw [resize_shrink d (by simp only [Vec.size, List.length_take]; omega)]
      simp only [Vec.size, List.take_length, List.take_take, Nat.min_self,
        Nat.sub_self, List.replicate_zero, List.append_nil, List.length_take]
      exact ⟨trivial, trivial⟩

lemma pushN_size (n : Nat) : (pushN n).size = n := by
  induction n with
  | zero => rfl
  | succ n ih => simp only [pushN, pushBack_size, ih]

lemma pushN_cap (n : Nat) : (pushN n).cap = if n = 0 then 0 else 2 ^ Nat.clog 2 n := by
  induction n with
  | zero => rfl
  | succ n ih =>
    rcases Nat.eq_zero_or_pos n with h0 | hpos
    · subst h0
      simp [pushN, Vec.PushBack, Vec.empty, Vec.size, Vec.growCap, Nat.clog_one_right]
    · have hn0 : n ≠ 0 := Nat.pos_iff_ne_zero.mp hpos
      simp only [pushN]
      unfold Vec.PushBack Vec.growCap
      rw [pushN_size, ih, if_neg hn0, if_neg (Nat.succ_ne_zero n)]
      by_cases hpow : n = 2 ^ Nat.clog 2 n
      · rw [if_pos hpow]
        have hk : Nat.clog 2 (n + 1) = Nat.clog 2 n + 1 := by
          have h1 : n + 1 ≤ 2 ^ (Nat.clog 2 n + 1) := by
            rw [pow_succ]
            omega
          have h2 : 2 ^ Nat.clog 2 n < n + 1 := by omega
          have hle := (Nat.le_pow_iff_clog_le (by norm_num)).mp h1
          have hlt := (Nat.pow_lt_iff_lt_clog (by norm_num)).mp h2
          omega
        rw [hk]
        simp only [if_neg hn0]
        rw [pow_succ]
        omega
      · rw [if_neg hpow]
        have hlt : n < 2 ^ Nat.clog 2 n :=
          lt_of_le_of_ne (Nat.le_pow_clog (by norm_num) n) hpow
        have hle : Nat.clog 2 (n + 1) ≤ Nat.clog 2 n :=
          (Nat.le_pow_iff_clog_le (by norm_num)).mp hlt
        have hge : Nat.clog 2 n ≤ Nat.clog 2 (n + 1) :=
          Nat.clog_mono_right 2 (Nat.le_succ n)
        rw [Nat.le_antisymm hge hle]

/-- C4: an append that finds `size == capacity` grows the capacity to
`max(1, 2 * old size)` (for both `PushBack` and `EmplaceBack`); an append never
shrinks capacity; and from the default-constructed vector the capacity after
`n` appends is `2 ^ ⌈log₂ n⌉`, i.e. the capacity runs through the sequence
1, 2, 4, 8, … as appends repeat. -/
theorem C4_growth_doubling :
    (∀ (T : Type) (v : Vec T) (x : T), v.size = v.cap →
        (v.PushBack x).cap = max 1 (2 * v.size) ∧
        (v.EmplaceBack x).cap = max 1 (2 * v.size)) ∧
    (∀ (T : Type) (v : Vec T) (x : T),
        v.cap ≤ (v.PushBack x).cap ∧ v.cap ≤ (v.EmplaceBack x).cap) ∧
    (∀ n : Nat, (pushN n).cap = if n = 0 then 0 else 2 ^ Nat.clog 2 n) := by
  refine ⟨?_, ?_, pushN_cap⟩
  · intro T v x h
    rw [emplaceBack_eq_pushBack]
    unfold Vec.PushBack Vec.growCap
    rw [if_pos h]
    constructor <;> · show (if v.size = 0 then 1 else 2 * v.size) = max 1 (2 * v.size)
                      split <;> omega
  · intro T v x
    rw [emplaceBack_eq_pushBack]
    unfold Vec.PushBack Vec.growCap
    split
    · next h =>
      constructor <;> · show v.cap ≤ if v.size = 0 then 1 else 2 * v.size
                        split <;> omega
    · exact ⟨Nat.le_refl _, Nat.le_refl _⟩

/-- Witness for C4: the first append on the default-constructed vector (where
`size = capacity = 0`) yields capacity `max 1 0 = 1`. -/
theorem C4_witness :
    ((Vec.empty : Vec Nat).PushBack 7).cap = max 1 (2 * (Vec.empty : Vec Nat).size) :=
  (C4_growth_doubling.1 Nat Vec.empty 7 rfl).1

end AdvancedVector
